import Mathlib

/-!
Verification development for the `einstellung` file-synchronisation tool
(`src/main.rs`). The interactive merge engine, the key-decoding loops, the
mode dispatch and the orchestrator's per-pair behaviour are embedded as pure
Lean functions; terminal interaction is modelled by threading the stream of
keypresses (`List Char`) and recording the emitted render/prompt events in a
trace. File-system access and the external line-diff producer are passed in
as explicit function parameters.
-/

namespace Einstellung

/-- `similar::ChangeTag` — the tag of one diff segment. -/
inductive ChangeTag : Type
  | Equal : ChangeTag
  | Insert : ChangeTag
  | Delete : ChangeTag
deriving DecidableEq, Repr

/-- One change segment produced by the diff producer: a tag plus the literal
line text (`change.value()` in the source). -/
structure Change : Type where
  tag : ChangeTag
  value : String
deriving DecidableEq, Repr

/-- `matches!(change.tag(), ChangeTag::Insert)` from the `changed` update in
`compare_files`. -/
def tagIsInsert : ChangeTag → Bool
  | ChangeTag.Insert => true
  | _ => false

/-- `read_accept_input`: scan the keypress stream, ASCII-lowercase each key,
and resolve the first of `a`/`s`/`d`/`f`; all other keys are skipped
(`_ => continue`). Returns the decision, the optional sticky flag
(`Option<bool>` in the source) and the unconsumed keys; `none` models the
loop never terminating because no valid key arrives. -/
def read_accept_input : List Char → Option (Bool × Option Bool × List Char)
  | [] => none
  | c :: rest =>
    let l := c.toLower
    if l = 'a' then some (true, none, rest)
    else if l = 's' then some (false, none, rest)
    else if l = 'd' then some (true, some true, rest)
    else if l = 'f' then some (false, some false, rest)
    else read_accept_input rest

/-- `read_save_question`: scan the keypress stream for `s` (save) or `d`
(discard), ASCII-lowercased, skipping all other keys. -/
def read_save_question : List Char → Option (Bool × List Char)
  | [] => none
  | c :: rest =>
    let l := c.toLower
    if l = 's' then some (true, rest)
    else if l = 'd' then some (false, rest)
    else read_save_question rest

/-- The sticky lookup in `compare_files`:
`if let Some((tag, accept)) = automatic && tag == change.tag()`. -/
def stickyFor : Option (ChangeTag × Bool) → ChangeTag → Option Bool
  | some (t, a), tag => if t = tag then some a else none
  | none, _ => none

/-- The decision loop of `compare_files` (the second pass over
`diff.iter_all_changes()`): threads the sticky slot `automatic` and the
keypress stream, and returns the accumulated `resulting_content`, the
`changed` flag, the list of tags at which a keypress prompt happened
(`read_accept_input` calls), the list of resolved `(tag, accept)` decisions
for the non-Equal segments in order, and the unconsumed keys. -/
def processChanges :
    List Change → Option (ChangeTag × Bool) → List Char →
      Option (String × Bool × List ChangeTag × List (ChangeTag × Bool) × List Char)
  | [], _, keys => some ("", false, [], [], keys)
  | c :: cs, automatic, keys =>
    if c.tag = ChangeTag.Equal then
      match processChanges cs automatic keys with
      | none => none
      | some (res, ch, ps, ds, ks) => some (c.value ++ res, ch, ps, ds, ks)
    else
      match stickyFor automatic c.tag with
      | some accept =>
        match processChanges cs automatic keys with
        | none => none
        | some (res, ch, ps, ds, ks) =>
          some ((if accept then c.value ++ res else res),
                ((accept == tagIsInsert c.tag) || ch),
                ps, (c.tag, accept) :: ds, ks)
      | none =>
        match read_accept_input keys with
        | none => none
        | some (accept, auto, keys1) =>
          match processChanges cs (auto.map fun a => (c.tag, a)) keys1 with
          | none => none
          | some (res, ch, ps, ds, ks) =>
            some ((if accept then c.value ++ res else res),
                  ((accept == tagIsInsert c.tag) || ch),
                  c.tag :: ps, (c.tag, accept) :: ds, ks)

/-- `u8::is_ascii_whitespace`, the character class used by
`str::trim_ascii_end`. -/
def isAsciiWhitespace (c : Char) : Bool :=
  c = ' ' || c = '\t' || c = '\n' || c = '\x0c' || c = '\r'

/-- `change.value().trim_ascii_end()` — the display form of a segment. -/
def trimAsciiEnd (s : String) : String :=
  String.mk ((s.toList.reverse.dropWhile isAsciiWhitespace).reverse)

/-- Observable outcome of one `compare_files` call: which terminal events
happened (hint line, preview render, keypress prompts, save gate), the
internal merge state (`resulting_content`, `changed`, resolved decisions)
and the returned `Option<String>`. -/
structure CompareTrace : Type where
  hintShown : Bool
  previewLines : List (ChangeTag × String)
  prompts : List ChangeTag
  decisions : List (ChangeTag × Bool)
  resulting : String
  changed : Bool
  saveGateInvoked : Bool
  result : Option String
  keysLeft : List Char
deriving DecidableEq, Repr

/-- `compare_files` on an already-computed segment list: returns `None`
immediately when every segment is Equal; otherwise shows the hint, renders
the preview pass, runs the decision loop, and asks the save question only
when `changed` is set (`changed && read_save_question(term)?`). The outer
`Option` models the interactive loops blocking forever on an exhausted key
stream. -/
def compare_files (segs : List Change) (keys : List Char) : Option CompareTrace :=
  if segs.all (fun c => decide (c.tag = ChangeTag.Equal)) then
    some { hintShown := false, previewLines := [], prompts := [], decisions := [],
           resulting := "", changed := false, saveGateInvoked := false,
           result := none, keysLeft := keys }
  else
    match processChanges segs none keys with
    | none => none
    | some (res, ch, ps, ds, ks) =>
      if ch then
        match read_save_question ks with
        | none => none
        | some (save, ks1) =>
          some { hintShown := true,
                 previewLines := segs.map (fun c => (c.tag, trimAsciiEnd c.value)),
                 prompts := ps, decisions := ds, resulting := res, changed := ch,
                 saveGateInvoked := true,
                 result := if save then some res else none, keysLeft := ks1 }
      else
        some { hintShown := true,
               previewLines := segs.map (fun c => (c.tag, trimAsciiEnd c.value)),
               prompts := ps, decisions := ds, resulting := res, changed := ch,
               saveGateInvoked := false, result := none, keysLeft := ks }

/-- Per-segment contribution actually realised by `compare_files`: Equal text
unconditionally, non-Equal text when the decision paired with that segment is
accept (`if accept { resulting_content.push_str(change.value()) }` runs for
Insert AND Delete segments alike). -/
def mergedConcat : List Change → List (ChangeTag × Bool) → String
  | [], _ => ""
  | c :: cs, ds =>
    if c.tag = ChangeTag.Equal then c.value ++ mergedConcat cs ds
    else
      match ds with
      | [] => mergedConcat cs []
      | (_, accept) :: ds1 => (if accept then c.value else "") ++ mergedConcat cs ds1

/-- The concatenation the spec sentence describes: Equal text always, Insert
text when accepted, Delete text never (regardless of its decision). Stated
from the spec's words, to be compared with the source behaviour. -/
def claimedConcat : List Change → List (ChangeTag × Bool) → String
  | [], _ => ""
  | c :: cs, ds =>
    match c.tag with
    | ChangeTag.Equal => c.value ++ claimedConcat cs ds
    | ChangeTag.Insert =>
      match ds with
      | [] => claimedConcat cs []
      | (_, accept) :: ds1 => (if accept then c.value else "") ++ claimedConcat cs ds1
    | ChangeTag.Delete =>
      match ds with
      | [] => claimedConcat cs []
      | _ :: ds1 => claimedConcat cs ds1

/-- Concatenation of the Equal- and Insert-segment texts, in order: by the
diff producer's reconstruction guarantee this is the candidate input. -/
def concatEqualInsert : List Change → String
  | [] => ""
  | c :: cs =>
    (if c.tag = ChangeTag.Delete then "" else c.value) ++ concatEqualInsert cs

/-- `char::is_whitespace` (Unicode `White_Space`), the class used by
`str::trim` and `str::split_whitespace` in the source. -/
def rustIsWhitespace (c : Char) : Bool :=
  (9 ≤ c.toNat && c.toNat ≤ 13) || c.toNat = 32 || c.toNat = 0x85 ||
  c.toNat = 0xA0 || c.toNat = 0x1680 ||
  (0x2000 ≤ c.toNat && c.toNat ≤ 0x200A) || c.toNat = 0x2028 ||
  c.toNat = 0x2029 || c.toNat = 0x202F || c.toNat = 0x205F || c.toNat = 0x3000

/-- `str::trim`: drop `char::is_whitespace` characters from both ends. -/
def rustTrim (s : String) : String :=
  String.mk
    ((((s.toList.dropWhile rustIsWhitespace).reverse.dropWhile
        rustIsWhitespace).reverse))

/-- `str::to_lowercase` as it acts on the argument strings relevant to mode
dispatch. On every character whose Unicode lowercasing is a single ASCII
letter of `read`/`write` the Unicode map agrees with ASCII lowercasing, so
the per-character ASCII map is the faithful embedding for the dispatch
comparison. -/
def rustToLowercase (s : String) : String :=
  String.mk (s.toList.map Char.toLower)

/-- The three continuations of `main`'s dispatch. -/
inductive Mode : Type
  | readMode : Mode
  | writeMode : Mode
  | helpMode : Mode
deriving DecidableEq, Repr

/-- `main`'s dispatch: take the first argument (if any), lowercase it, trim
it, and match against `"read"` / `"write"`; everything else falls through to
`help()`. -/
def mainMode (arg : Option String) : Mode :=
  match arg.map (fun a => rustTrim (rustToLowercase a)) with
  | some s =>
    if s = "read" then Mode.readMode
    else if s = "write" then Mode.writeMode
    else Mode.helpMode
  | none => Mode.helpMode

/-- Which of the three continuations calls `read_configuration` (loads the
manifest): `read()` and `write()` do, `help()` only prints the bundled text. -/
def modeReadsConfiguration : Mode → Bool
  | Mode.helpMode => false
  | _ => true

/-- `EinstellungError` with the data each variant carries (I/O causes are
modelled as their display strings). -/
inductive EinstellungError : Type
  | IoError : String → EinstellungError
  | ConfigurationMissing : EinstellungError
  | SyncFileMissing : String → String → EinstellungError
  | FailedToSaveSyncFile : String → String → EinstellungError
  | FailedToSaveConfigurationFile : String → String → EinstellungError
deriving DecidableEq, Repr

/-- The `#[error(...)]` display strings of `EinstellungError`. -/
def errorMessage : EinstellungError → String
  | EinstellungError.IoError cause => cause
  | EinstellungError.ConfigurationMissing => "The configuration file is missing"
  | EinstellungError.SyncFileMissing path cause =>
      "The synced file " ++ path ++ " is missing (" ++ cause ++ ")"
  | EinstellungError.FailedToSaveSyncFile path cause =>
      "The synced file " ++ path ++ " could not be saved (" ++ cause ++ ")"
  | EinstellungError.FailedToSaveConfigurationFile path cause =>
      "The configuration file " ++ path ++ " could not be saved (" ++ cause ++ ")"

/-- `help()`: prints the bundled readme and returns `Ok(())` — it performs
no file operation. -/
def helpResult : Except EinstellungError Unit := Except.ok ()

/-- Worker for `splitWhitespace`: walk the characters, accumulating the
current token (reversed) and emitting it at each whitespace boundary. -/
def splitWhitespaceAux : List Char → List Char → List String
  | [], acc => if acc.isEmpty then [] else [String.mk acc.reverse]
  | c :: rest, acc =>
    if rustIsWhitespace c then
      (if acc.isEmpty then [] else [String.mk acc.reverse]) ++
        splitWhitespaceAux rest []
    else splitWhitespaceAux rest (c :: acc)

/-- `str::split_whitespace`: the maximal non-empty runs of
non-whitespace characters, in order (empty pieces are never produced). -/
def splitWhitespace (s : String) : List String :=
  splitWhitespaceAux s.toList []

/-- `str::lines`: split at `'\n'`, drop a final empty piece, and strip one
trailing `'\r'` from each line. -/
def rustLines (s : String) : List String :=
  let parts := s.splitOn "\n"
  (if parts.getLast? = some "" then parts.dropLast else parts).map
    (fun line => if line.endsWith "\r" then line.dropRight 1 else line)

/-- `original_file.starts_with('#')`: the token's first character is `#`. -/
def startsWithHash (s : String) : Bool :=
  match s.toList with
  | [] => false
  | c :: _ => c = '#'

/-- The per-line body of `read_configuration`'s `flat_map`: first
whitespace-separated token is the original path (none on a blank line, line
skipped when it starts with `#`), the remaining tokens are the other paths. -/
def parseSyncLine (line : String) : Option (String × List String) :=
  match splitWhitespace line with
  | [] => none
  | original :: parts =>
    if startsWithHash original then none else some (original, parts)

/-- `read_configuration` applied to the already-loaded manifest text. -/
def read_configuration (configuration : String) : List (String × List String) :=
  (rustLines configuration).filterMap parseSyncLine

/-- One status line / side effect of the per-pair orchestration. -/
inductive PairEvent : Type
  | invalidName : String → PairEvent
  | notFound : String → PairEvent
  | compare : String → PairEvent
  | fileWrite : String → String → PairEvent
deriving DecidableEq, Repr

/-- Body of `write()`'s inner loop for one other-path: expand the path
(report `Invalid file name` on failure), load it (report `Not found` on
failure), print `Compare to`, skip when the contents are identical,
otherwise ask the save question and on confirmation write the original's
content to the other file — a failing write raises
`FailedToSaveConfigurationFile(original_file, err)`. `expand`, `load` and
`fsWrite` stand for `shellexpand::full`, `fs::read_to_string` and
`fs::write`; `fsWrite` returns the error cause on failure. -/
def write_pair (expand : String → Option String)
    (load : String → Except String String)
    (fsWrite : String → String → Option String)
    (original_file original_content other_raw : String) (keys : List Char) :
    Option (Except EinstellungError (List PairEvent × List Char)) :=
  match expand other_raw with
  | none => some (Except.ok ([PairEvent.invalidName other_raw], keys))
  | some other_file =>
    match load other_file with
    | Except.error _ => some (Except.ok ([PairEvent.notFound other_file], keys))
    | Except.ok other_content =>
      if original_content = other_content then
        some (Except.ok ([PairEvent.compare other_file], keys))
      else
        match read_save_question keys with
        | none => none
        | some (save, keys1) =>
          if save then
            match fsWrite other_file original_content with
            | some err =>
              some (Except.error
                (EinstellungError.FailedToSaveConfigurationFile original_file err))
            | none =>
              some (Except.ok
                ([PairEvent.compare other_file,
                  PairEvent.fileWrite other_file original_content], keys1))
          else
            some (Except.ok ([PairEvent.compare other_file], keys1))

/-- Body of `read()`'s inner loop for one other-path: expand and load as in
`write_pair`, print `Compare with`, run the merge session
(`compare_files` over the diff of the two contents), and when it returns
content write it back to the original file — a failing write raises
`FailedToSaveSyncFile(original_file, err)`. `diff` stands for
`TextDiff::from_lines`. -/
def read_pair (expand : String → Option String)
    (load : String → Except String String)
    (diff : String → String → List Change)
    (fsWrite : String → String → Option String)
    (original_file original_content other_raw : String) (keys : List Char) :
    Option (Except EinstellungError (List PairEvent × List Char)) :=
  match expand other_raw with
  | none => some (Except.ok ([PairEvent.invalidName other_raw], keys))
  | some other_file =>
    match load other_file with
    | Except.error _ => some (Except.ok ([PairEvent.notFound other_file], keys))
    | Except.ok other_content =>
      match compare_files (diff original_content other_content) keys with
      | none => none
      | some trace =>
        match trace.result with
        | some content =>
          match fsWrite original_file content with
          | some err =>
            some (Except.error
              (EinstellungError.FailedToSaveSyncFile original_file err))
          | none =>
            some (Except.ok
              ([PairEvent.compare other_file,
                PairEvent.fileWrite original_file content], trace.keysLeft))
        | none =>
          some (Except.ok ([PairEvent.compare other_file], trace.keysLeft))

/-- `read()`'s inner loop over the other-paths of one entry. -/
def read_others (expand : String → Option String)
    (load : String → Except String String)
    (diff : String → String → List Change)
    (fsWrite : String → String → Option String)
    (original_file original_content : String) :
    List String → List Char → Option (Except EinstellungError (List PairEvent × List Char))
  | [], keys => some (Except.ok ([], keys))
  | raw :: rest, keys =>
    match read_pair expand load diff fsWrite original_file original_content raw keys with
    | none => none
    | some (Except.error e) => some (Except.error e)
    | some (Except.ok (evs, keys1)) =>
      match read_others expand load diff fsWrite original_file original_content rest keys1 with
      | none => none
      | some (Except.error e) => some (Except.error e)
      | some (Except.ok (evs1, keys2)) => some (Except.ok (evs ++ evs1, keys2))

/-- One `read()` manifest entry: load the original (its absence is the fatal
`SyncFileMissing`), then walk the other-paths. -/
def read_entry (expand : String → Option String)
    (load : String → Except String String)
    (diff : String → String → List Change)
    (fsWrite : String → String → Option String)
    (original_file : String) (other_files : List String) (keys : List Char) :
    Option (Except EinstellungError (List PairEvent × List Char)) :=
  match load original_file with
  | Except.error e =>
    some (Except.error (EinstellungError.SyncFileMissing original_file e))
  | Except.ok original_content =>
    read_others expand load diff fsWrite original_file original_content other_files keys

/-- `write()`'s inner loop over the other-paths of one entry. -/
def write_others (expand : String → Option String)
    (load : String → Except String String)
    (fsWrite : String → String → Option String)
    (original_file original_content : String) :
    List String → List Char → Option (Except EinstellungError (List PairEvent × List Char))
  | [], keys => some (Except.ok ([], keys))
  | raw :: rest, keys =>
    match write_pair expand load fsWrite original_file original_content raw keys with
    | none => none
    | some (Except.error e) => some (Except.error e)
    | some (Except.ok (evs, keys1)) =>
      match write_others expand load fsWrite original_file original_content rest keys1 with
      | none => none
      | some (Except.error e) => some (Except.error e)
      | some (Except.ok (evs1, keys2)) => some (Except.ok (evs ++ evs1, keys2))

/-- One `write()` manifest entry: load the original (its absence is the
fatal `SyncFileMissing`), then walk the other-paths. -/
def write_entry (expand : String → Option String)
    (load : String → Except String String)
    (fsWrite : String → String → Option String)
    (original_file : String) (other_files : List String) (keys : List Char) :
    Option (Except EinstellungError (List PairEvent × List Char)) :=
  match load original_file with
  | Except.error e =>
    some (Except.error (EinstellungError.SyncFileMissing original_file e))
  | Except.ok original_content =>
    write_others expand load fsWrite original_file original_content other_files keys

/-- Structural facts about the decision loop, proved together by one
induction: the accumulated `resulting_content` is the decision-consistent
concatenation `mergedConcat`; every recorded decision concerns a non-Equal
segment; the `changed` flag is set exactly when some recorded decision
`(tag, accept)` has `accept = matches!(tag, Insert)`; and when every Insert
is accepted and every Delete rejected the result is the Equal+Insert
concatenation. -/
theorem processChanges_spec :
    ∀ (segs : List Change) (auto : Option (ChangeTag × Bool)) (keys : List Char)
      (res : String) (ch : Bool) (ps : List ChangeTag)
      (ds : List (ChangeTag × Bool)) (ks : List Char),
      processChanges segs auto keys = some (res, ch, ps, ds, ks) →
      res = mergedConcat segs ds ∧
      (∀ p ∈ ds, p.1 ≠ ChangeTag.Equal) ∧
      (ch = true ↔ ∃ p ∈ ds, p.2 = tagIsInsert p.1) ∧
      ((∀ p ∈ ds, (p.1 = ChangeTag.Insert → p.2 = true) ∧
                  (p.1 = ChangeTag.Delete → p.2 = false)) →
        res = concatEqualInsert segs)
  | [], auto, keys, res, ch, ps, ds, ks, h => by
    simp only [processChanges, Option.some_inj, Prod.mk.injEq] at h
    obtain ⟨h1, h2, h3, h4, h5⟩ := h
    subst h1; subst h2; subst h4
    simp [mergedConcat, concatEqualInsert]
  | c :: cs, auto, keys, res, ch, ps, ds, ks, h => by
    have step :
        ∀ (accept : Bool) (res1 : String) (ch1 : Bool) (ds1 : List (ChangeTag × Bool)),
          c.tag ≠ ChangeTag.Equal →
          res1 = mergedConcat cs ds1 →
          (∀ p ∈ ds1, p.1 ≠ ChangeTag.Equal) →
          (ch1 = true ↔ ∃ p ∈ ds1, p.2 = tagIsInsert p.1) →
          ((∀ p ∈ ds1, (p.1 = ChangeTag.Insert → p.2 = true) ∧
                (p.1 = ChangeTag.Delete → p.2 = false)) →
            res1 = concatEqualInsert cs) →
          (if accept then c.value ++ res1 else res1) =
            mergedConcat (c :: cs) ((c.tag, accept) :: ds1) ∧
          (∀ p ∈ (c.tag, accept) :: ds1, p.1 ≠ ChangeTag.Equal) ∧
          (((accept == tagIsInsert c.tag) || ch1) = true ↔
            ∃ p ∈ (c.tag, accept) :: ds1, p.2 = tagIsInsert p.1) ∧
          ((∀ p ∈ (c.tag, accept) :: ds1,
              (p.1 = ChangeTag.Insert → p.2 = true) ∧
              (p.1 = ChangeTag.Delete → p.2 = false)) →
            (if accept then c.value ++ res1 else res1) = concatEqualInsert (c :: cs)) := by
      intro accept res1 ch1 ds1 he ih1 ih2 ih3 ih4
      refine ⟨?_, ?_, ?_, ?_⟩
      · simp only [mergedConcat, if_neg he, ← ih1]
        cases accept <;> simp
      · intro p hp
        rcases List.mem_cons.mp hp with hp | hp
        · subst hp; exact he
        · exact ih2 p hp
      · constructor
        · intro hor
          rcases (by simpa using hor : accept = tagIsInsert c.tag ∨ ch1 = true) with hacc | hch
          · exact ⟨(c.tag, accept), List.mem_cons_self _ _, hacc⟩
          · obtain ⟨p, hp, hpe⟩ := ih3.mp hch
            exact ⟨p, List.mem_cons_of_mem _ hp, hpe⟩
        · rintro ⟨p, hp, hpe⟩
          simp only [Bool.or_eq_true, beq_iff_eq]
          rcases List.mem_cons.mp hp with hp | hp
          · subst hp; exact Or.inl hpe
          · exact Or.inr (ih3.mpr ⟨p, hp, hpe⟩)
      · intro hpat
        have hc := hpat (c.tag, accept) (List.mem_cons_self _ _)
        have hrest := fun p hp => hpat p (List.mem_cons_of_mem _ hp)
        have hres := ih4 hrest
        cases ht : c.tag with
        | Equal => exact absurd ht he
        | Insert =>
          have ha : accept = true := hc.1 (by rw [ht])
          subst ha
          simp [concatEqualInsert, ht, hres]
        | Delete =>
          have ha : accept = false := hc.2 (by rw [ht])
          subst ha
          simp [concatEqualInsert, ht, hres]
    by_cases he : c.tag = ChangeTag.Equal
    · cases hpc : processChanges cs auto keys with
      | none =>
        simp only [processChanges, if_pos he, hpc] at h
        exact Option.noConfusion h
      | some v =>
        obtain ⟨res1, ch1, ps1, ds1, ks1⟩ := v
        simp only [processChanges, if_pos he, hpc, Option.some_inj, Prod.mk.injEq] at h
        obtain ⟨h1, h2, h3, h4, h5⟩ := h
        subst h1; subst h2; subst h4
        obtain ⟨ih1, ih2, ih3, ih4⟩ :=
          processChanges_spec cs auto keys res1 ch1 ps1 ds1 ks1 hpc
        refine ⟨?_, ih2, ih3, ?_⟩
        · simp [mergedConcat, he, ih1]
        · intro hpat
          have hne : ¬ c.tag = ChangeTag.Delete := by rw [he]; intro hcon; cases hcon
          simp [concatEqualInsert, hne, ih4 hpat]
    · cases hst : stickyFor auto c.tag with
      | some accept =>
        cases hpc : processChanges cs auto keys with
        | none =>
          simp only [processChanges, if_neg he, hst, hpc] at h
          exact Option.noConfusion h
        | some v =>
          obtain ⟨res1, ch1, ps1, ds1, ks1⟩ := v
          simp only [processChanges, if_neg he, hst, hpc, Option.some_inj, Prod.mk.injEq] at h
          obtain ⟨h1, h2, h3, h4, h5⟩ := h
          subst h1; subst h2; subst h4
          obtain ⟨ih1, ih2, ih3, ih4⟩ :=
            processChanges_spec cs auto keys res1 ch1 ps1 ds1 ks1 hpc
          exact step accept res1 ch1 ds1 he ih1 ih2 ih3 ih4
      | none =>
        cases hra : read_accept_input keys with
        | none =>
          simp only [processChanges, if_neg he, hst, hra] at h
          exact Option.noConfusion h
        | some w =>
          obtain ⟨accept, auto1, keys1⟩ := w
          cases hpc : processChanges cs (auto1.map fun a => (c.tag, a)) keys1 with
          | none =>
            simp only [processChanges, if_neg he, hst, hra, hpc] at h
            exact Option.noConfusion h
          | some v =>
            obtain ⟨res1, ch1, ps1, ds1, ks1⟩ := v
            simp only [processChanges, if_neg he, hst, hra, hpc,
              Option.some_inj, Prod.mk.injEq] at h
            obtain ⟨h1, h2, h3, h4, h5⟩ := h
            subst h1; subst h2; subst h4
            obtain ⟨ih1, ih2, ih3, ih4⟩ :=
              processChanges_spec cs (auto1.map fun a => (c.tag, a)) keys1
                res1 ch1 ps1 ds1 ks1 hpc
            exact step accept res1 ch1 ds1 he ih1 ih2 ih3 ih4

/-- The decision table of the spec's Decision Protocol, written from the
spec's key table (case-insensitive; `none` = key ignored), to be compared
with the looping reader `read_accept_input`. -/
def decodeKey (c : Char) : Option (Bool × Option Bool) :=
  if c.toLower = 'a' then some (true, none)
  else if c.toLower = 's' then some (false, none)
  else if c.toLower = 'd' then some (true, some true)
  else if c.toLower = 'f' then some (false, some false)
  else none

/-- C4: for every prompted non-Equal segment the decision keypress resolves
case-insensitively per the a/s/d/f table, and every other key is ignored,
the prompt repeating until one of the four keys is read: `read_accept_input`
skips exactly the keys the table ignores and resolves the first key the
table accepts. -/
theorem read_accept_input_decodes (keys : List Char) :
    read_accept_input keys =
      match keys.dropWhile (fun c => (decodeKey c).isNone) with
      | [] => none
      | c :: rest => (decodeKey c).map (fun d => (d.1, d.2, rest)) := by
  induction keys with
  | nil => rfl
  | cons c rest ih =>
    by_cases ha : c.toLower = 'a'
    · simp [read_accept_input, decodeKey, ha, List.dropWhile_cons]
    · by_cases hs : c.toLower = 's'
      · simp [read_accept_input, decodeKey, ha, hs, List.dropWhile_cons]
      · by_cases hd : c.toLower = 'd'
        · simp [read_accept_input, decodeKey, ha, hs, hd, List.dropWhile_cons]
        · by_cases hf : c.toLower = 'f'
          · simp [read_accept_input, decodeKey, ha, hs, hd, hf, List.dropWhile_cons]
          · simp [read_accept_input, decodeKey, ha, hs, hd, hf, List.dropWhile_cons, ih]

/-- While the sticky slot holds `(T, a)` and only `T`- or Equal-tagged
segments arrive, the decision loop issues no prompt, consumes no key, and
leaves the slot untouched. -/
theorem processChanges_sticky_covers (T : ChangeTag) (a : Bool) :
    ∀ (cs : List Change) (keys : List Char),
      (∀ s ∈ cs, s.tag = T ∨ s.tag = ChangeTag.Equal) →
      ∃ res ch ds, processChanges cs (some (T, a)) keys = some (res, ch, [], ds, keys)
  | [], _, _ => ⟨"", false, [], rfl⟩
  | c :: cs, keys, h => by
    obtain ⟨res, ch, ds, ih⟩ :=
      processChanges_sticky_covers T a cs keys (fun s hs => h s (List.mem_cons_of_mem _ hs))
    by_cases he : c.tag = ChangeTag.Equal
    · exact ⟨c.value ++ res, ch, ds, by simp [processChanges, he, ih]⟩
    · have hc : c.tag = T := (h c (List.mem_cons_self _ _)).resolve_right he
      have hst : stickyFor (some (T, a)) c.tag = some a := by simp [stickyFor, hc]
      exact ⟨(if a then c.value ++ res else res), ((a == tagIsInsert c.tag) || ch),
        (c.tag, a) :: ds, by simp [processChanges, he, hst, ih]⟩

/-- Processing a sticky-covered prefix in front of any continuation only
prepends content and decisions: the continuation's prompts, trailing keys
and sticky state are untouched. -/
theorem processChanges_sticky_append (T : ChangeTag) (a : Bool) :
    ∀ (pre : List Change),
      (∀ s ∈ pre, s.tag = T ∨ s.tag = ChangeTag.Equal) →
      ∀ (rest : List Change) (keys : List Char),
      ∃ res0 ch0 ds0,
        processChanges (pre ++ rest) (some (T, a)) keys =
          (processChanges rest (some (T, a)) keys).map
            (fun v => (res0 ++ v.1, (ch0 || v.2.1), v.2.2.1, ds0 ++ v.2.2.2.1, v.2.2.2.2))
  | [], _, rest, keys => by
    refine ⟨"", false, [], ?_⟩
    cases hrest : processChanges rest (some (T, a)) keys with
    | none => simp [hrest]
    | some v =>
      obtain ⟨v1, v2, v3, v4, v5⟩ := v
      simp [hrest]
  | s :: pre, h, rest, keys => by
    obtain ⟨res0, ch0, ds0, ih⟩ :=
      processChanges_sticky_append T a pre
        (fun x hx => h x (List.mem_cons_of_mem _ hx)) rest keys
    by_cases he : s.tag = ChangeTag.Equal
    · refine ⟨s.value ++ res0, ch0, ds0, ?_⟩
      cases hrest : processChanges rest (some (T, a)) keys with
      | none =>
        rw [hrest] at ih
        have hmid : processChanges (pre ++ rest) (some (T, a)) keys = none := by
          simpa using ih
        simp [List.cons_append, processChanges, if_pos he, hmid, hrest]
      | some v =>
        obtain ⟨v1, v2, v3, v4, v5⟩ := v
        rw [hrest] at ih
        have hmid : processChanges (pre ++ rest) (some (T, a)) keys =
            some (res0 ++ v1, (ch0 || v2), v3, ds0 ++ v4, v5) := by
          simpa using ih
        simp [List.cons_append, processChanges, if_pos he, hmid, hrest,
          String.append_assoc]
    · have hc : s.tag = T := (h s (List.mem_cons_self _ _)).resolve_right he
      have hst : stickyFor (some (T, a)) s.tag = some a := by simp [stickyFor, hc]
      refine ⟨(if a then s.value ++ res0 else res0),
        ((a == tagIsInsert s.tag) || ch0), (s.tag, a) :: ds0, ?_⟩
      cases hrest : processChanges rest (some (T, a)) keys with
      | none =>
        rw [hrest] at ih
        have hmid : processChanges (pre ++ rest) (some (T, a)) keys = none := by
          simpa using ih
        simp [List.cons_append, processChanges, if_neg he, hst, hmid, hrest]
      | some v =>
        obtain ⟨v1, v2, v3, v4, v5⟩ := v
        rw [hrest] at ih
        have hmid : processChanges (pre ++ rest) (some (T, a)) keys =
            some (res0 ++ v1, (ch0 || v2), v3, ds0 ++ v4, v5) := by
          simpa using ih
        cases a <;>
          simp [List.cons_append, processChanges, if_neg he, hst, hmid, hrest,
            String.append_assoc, Bool.or_assoc]

/-- C3: once a block decision (`d` or `f`, read as `(accept, some a)`) is
issued at a non-Equal segment `c` to which no sticky decision applied, no
further keypress prompt occurs while the subsequent segments have the same
tag (or are Equal, which never prompts); the whole covered prefix
contributes exactly the one issuing prompt, and processing resumes at the
first segment past the prefix with the single sticky slot holding
`(c.tag, a)` — each sticky choice overwrites the slot, and the slot is
consulted only by segments of exactly its tag. -/
theorem sticky_decision_no_reprompt
    (c : Change) (pre rest : List Change) (auto : Option (ChangeTag × Bool))
    (keys keys1 : List Char) (accept a : Bool)
    (hne : c.tag ≠ ChangeTag.Equal)
    (hsticky : stickyFor auto c.tag = none)
    (hread : read_accept_input keys = some (accept, some a, keys1))
    (hpre : ∀ s ∈ pre, s.tag = c.tag ∨ s.tag = ChangeTag.Equal) :
    ∃ res0 ch0 ds0,
      processChanges (c :: (pre ++ rest)) auto keys =
        (processChanges rest (some (c.tag, a)) keys1).map
          (fun v => (res0 ++ v.1, (ch0 || v.2.1), c.tag :: v.2.2.1,
                     ds0 ++ v.2.2.2.1, v.2.2.2.2)) := by
  obtain ⟨res0, ch0, ds0, happ⟩ :=
    processChanges_sticky_append c.tag a pre hpre rest keys1
  refine ⟨(if accept then c.value ++ res0 else res0),
    ((accept == tagIsInsert c.tag) || ch0), (c.tag, accept) :: ds0, ?_⟩
  cases hrest : processChanges rest (some (c.tag, a)) keys1 with
  | none =>
    rw [hrest] at happ
    have hmid : processChanges (pre ++ rest) (some (c.tag, a)) keys1 = none := by
      simpa using happ
    simp [processChanges, if_neg hne, hsticky, hread, hmid, hrest]
  | some v =>
    obtain ⟨v1, v2, v3, v4, v5⟩ := v
    rw [hrest] at happ
    have hmid : processChanges (pre ++ rest) (some (c.tag, a)) keys1 =
        some (res0 ++ v1, (ch0 || v2), v3, ds0 ++ v4, v5) := by
      simpa using happ
    cases accept <;>
      simp [processChanges, if_neg hne, hsticky, hread, hmid, hrest,
        String.append_assoc, Bool.or_assoc]

/-- Membership characterisation of the `changed` condition over a decision
list containing no Equal tags. -/
theorem exists_decision_iff (ds : List (ChangeTag × Bool))
    (hne : ∀ p ∈ ds, p.1 ≠ ChangeTag.Equal) :
    (∃ p ∈ ds, p.2 = tagIsInsert p.1) ↔
      ((ChangeTag.Insert, true) ∈ ds ∨ (ChangeTag.Delete, false) ∈ ds) := by
  constructor
  · rintro ⟨⟨t, aq⟩, hp, hpe⟩
    cases t with
    | Equal => exact absurd rfl (hne _ hp)
    | Insert =>
      left
      simp only [tagIsInsert] at hpe
      subst hpe
      exact hp
    | Delete =>
      right
      simp only [tagIsInsert] at hpe
      subst hpe
      exact hp
  · rintro (hp | hp)
    · exact ⟨_, hp, rfl⟩
    · exact ⟨_, hp, rfl⟩

/-- Unfolding of `compare_files`: either every segment is Equal and the call
returns immediately with the inert trace, or the decision loop ran and the
trace records its outputs, with the save gate invoked exactly when `changed`
is set. -/
theorem compare_files_inv (segs : List Change) (keys : List Char) (trace : CompareTrace)
    (h : compare_files segs keys = some trace) :
    (segs.all (fun c => decide (c.tag = ChangeTag.Equal)) = true ∧
      trace = { hintShown := false, previewLines := [], prompts := [], decisions := [],
                resulting := "", changed := false, saveGateInvoked := false,
                result := none, keysLeft := keys }) ∨
    (segs.all (fun c => decide (c.tag = ChangeTag.Equal)) = false ∧
      (∃ ks, processChanges segs none keys =
        some (trace.resulting, trace.changed, trace.prompts, trace.decisions, ks)) ∧
      trace.saveGateInvoked = trace.changed) := by
  by_cases hall : segs.all (fun c => decide (c.tag = ChangeTag.Equal)) = true
  · left
    refine ⟨hall, ?_⟩
    simp only [compare_files, if_pos hall, Option.some_inj] at h
    exact h.symm
  · right
    have hall1 : segs.all (fun c => decide (c.tag = ChangeTag.Equal)) = false := by
      simpa using hall
    refine ⟨hall1, ?_⟩
    simp only [compare_files, if_neg hall] at h
    cases hpc : processChanges segs none keys with
    | none =>
      rw [hpc] at h
      exact Option.noConfusion h
    | some v =>
      obtain ⟨res, ch, ps, ds, ks⟩ := v
      rw [hpc] at h
      by_cases hch : ch = true
      · simp only [if_pos hch] at h
        cases hsq : read_save_question ks with
        | none =>
          rw [hsq] at h
          exact Option.noConfusion h
        | some w =>
          obtain ⟨save, ks1⟩ := w
          rw [hsq] at h
          simp only [Option.some_inj] at h
          subst h
          refine ⟨⟨ks, ?_⟩, hch.symm⟩
          simp [hpc]
      · simp only [if_neg hch] at h
        simp only [Option.some_inj] at h
        subst h
        simp only [Bool.not_eq_true] at hch
        refine ⟨⟨ks, ?_⟩, hch.symm⟩
        simp [hpc]

/-- C1 (counterexample): a session whose only segment is a Delete, with the
Delete rejected, sets `changed`, reaches the Save Gate and returns
changed-and-saved content — contradicting the claim that Delete decisions
never set the flag and that a delete-only session never reaches the gate. -/
theorem delete_only_session_reaches_save_gate :
    (compare_files [{ tag := ChangeTag.Delete, value := "b\n" }] ['s', 's']).map
      (fun t => (t.changed, t.saveGateInvoked, t.result)) =
      some (true, true, some "") := by
  rfl

/-- C1 (amended): the Save Gate is invoked exactly when `changed` is set,
and `changed` is set iff some Insert segment was resolved Accept OR some
Delete segment was resolved Reject (`changed |= accept == matches!(tag,
Insert)`); in particular a delete-only session whose Deletes are all
accepted never reaches the gate, but one with a rejected Delete does. -/
theorem save_gate_changed_characterisation
    (segs : List Change) (keys : List Char) (trace : CompareTrace)
    (h : compare_files segs keys = some trace) :
    trace.saveGateInvoked = trace.changed ∧
    (trace.changed = true ↔
      (ChangeTag.Insert, true) ∈ trace.decisions ∨
      (ChangeTag.Delete, false) ∈ trace.decisions) := by
  rcases compare_files_inv segs keys trace h with ⟨hall, rfl⟩ | ⟨hall, ⟨ks, hpc⟩, hgate⟩
  · simp
  · obtain ⟨h1, h2, h3, h4⟩ := processChanges_spec segs none keys _ _ _ _ _ hpc
    exact ⟨hgate, h3.trans (exists_decision_iff _ h2)⟩

/-- Witness for C1 amended: at the delete-only session with the Delete
accepted, `changed` is false, the gate is not invoked, and neither an
accepted Insert nor a rejected Delete is among the decisions. -/
theorem save_gate_changed_characterisation_witness :
    (false : Bool) = false ∧
    ((false : Bool) = true ↔
      (ChangeTag.Insert, true) ∈ [(ChangeTag.Delete, true)] ∨
      (ChangeTag.Delete, false) ∈ [(ChangeTag.Delete, true)]) :=
  save_gate_changed_characterisation
    [{ tag := ChangeTag.Delete, value := "b\n" }] ['a']
    { hintShown := true, previewLines := [(ChangeTag.Delete, "b")],
      prompts := [ChangeTag.Delete], decisions := [(ChangeTag.Delete, true)],
      resulting := "b\n", changed := false, saveGateInvoked := false,
      result := none, keysLeft := [] } rfl

/-- C2 (counterexample): accepting a Delete appends its text to
`resulting_content`, so the buffer is NOT the Equal+accepted-Insert
concatenation the claim describes. -/
theorem accepted_delete_text_in_result :
    ((compare_files [{ tag := ChangeTag.Delete, value := "b\n" }] ['a']).map
      (fun t => (t.resulting,
        claimedConcat [{ tag := ChangeTag.Delete, value := "b\n" }] t.decisions)) =
      some ("b\n", "")) ∧ ("b\n" : String) ≠ "" := by
  exact ⟨rfl, by decide⟩

/-- C2 (amended): for a session with at least one non-Equal segment, the
result buffer is the in-order concatenation of Equal-segment texts and the
texts of ACCEPTED non-Equal segments — Insert and Delete alike; rejected
segments contribute nothing. -/
theorem resulting_content_characterisation
    (segs : List Change) (keys : List Char) (trace : CompareTrace)
    (h : compare_files segs keys = some trace)
    (hsome : ∃ s ∈ segs, s.tag ≠ ChangeTag.Equal) :
    trace.resulting = mergedConcat segs trace.decisions := by
  rcases compare_files_inv segs keys trace h with ⟨hall, rfl⟩ | ⟨hall, ⟨ks, hpc⟩, _⟩
  · obtain ⟨s, hs, hsne⟩ := hsome
    rw [List.all_eq_true] at hall
    exact absurd (of_decide_eq_true (hall s hs)) hsne
  · exact (processChanges_spec segs none keys _ _ _ _ _ hpc).1

/-- Witness for C2 amended: at the delete-only session with the Delete
accepted, the buffer equals the corrected concatenation (which includes the
accepted Delete's text). -/
theorem resulting_content_characterisation_witness :
    ("b\n" : String) =
      mergedConcat [{ tag := ChangeTag.Delete, value := "b\n" }]
        [(ChangeTag.Delete, true)] :=
  resulting_content_characterisation
    [{ tag := ChangeTag.Delete, value := "b\n" }] ['a']
    { hintShown := true, previewLines := [(ChangeTag.Delete, "b")],
      prompts := [ChangeTag.Delete], decisions := [(ChangeTag.Delete, true)],
      resulting := "b\n", changed := false, saveGateInvoked := false,
      result := none, keysLeft := [] } rfl
    ⟨{ tag := ChangeTag.Delete, value := "b\n" }, List.mem_cons_self _ _, by decide⟩

/-- C5: when every change segment is tagged Equal the merge session returns
the unchanged outcome (`Ok(None)`) immediately: no hint, no preview
rendering, no keypress prompt, no save gate, no key consumed. -/
theorem all_equal_returns_unchanged (segs : List Change) (keys : List Char)
    (h : ∀ s ∈ segs, s.tag = ChangeTag.Equal) :
    compare_files segs keys =
      some { hintShown := false, previewLines := [], prompts := [], decisions := [],
             resulting := "", changed := false, saveGateInvoked := false,
             result := none, keysLeft := keys } := by
  have hall : segs.all (fun c => decide (c.tag = ChangeTag.Equal)) = true := by
    rw [List.all_eq_true]
    intro s hs
    exact decide_eq_true (h s hs)
  simp [compare_files, hall]

/-- Witness for C5 at a one-segment Equal diff. -/
theorem all_equal_returns_unchanged_witness :
    compare_files [{ tag := ChangeTag.Equal, value := "a\n" }] ['x'] =
      some { hintShown := false, previewLines := [], prompts := [], decisions := [],
             resulting := "", changed := false, saveGateInvoked := false,
             result := none, keysLeft := ['x'] } :=
  all_equal_returns_unchanged _ _ (by decide)

/-- C6: when every Insert is resolved Accept and every Delete resolved
Reject, the result buffer is the Equal+Insert concatenation, i.e. exactly
the candidate text under the diff producer's reconstruction guarantee
(stated as the hypothesis `concatEqualInsert segs = candidate`). -/
theorem accept_inserts_reject_deletes_reproduces_candidate
    (segs : List Change) (keys : List Char) (trace : CompareTrace)
    (candidate : String)
    (h : compare_files segs keys = some trace)
    (hsome : ∃ s ∈ segs, s.tag ≠ ChangeTag.Equal)
    (hdec : ∀ p ∈ trace.decisions,
      (p.1 = ChangeTag.Insert → p.2 = true) ∧ (p.1 = ChangeTag.Delete → p.2 = false))
    (hrec : concatEqualInsert segs = candidate) :
    trace.resulting = candidate := by
  rcases compare_files_inv segs keys trace h with ⟨hall, rfl⟩ | ⟨hall, ⟨ks, hpc⟩, _⟩
  · obtain ⟨s, hs, hsne⟩ := hsome
    rw [List.all_eq_true] at hall
    exact absurd (of_decide_eq_true (hall s hs)) hsne
  · exact ((processChanges_spec segs none keys _ _ _ _ _ hpc).2.2.2 hdec).trans hrec

/-- Witness for C6 at the session Equal/Delete/Insert/Equal with the Delete
rejected and the Insert accepted. -/
theorem accept_inserts_reject_deletes_witness :
    ("a\nx\nc\n" : String) = "a\nx\nc\n" :=
  accept_inserts_reject_deletes_reproduces_candidate
    [{ tag := ChangeTag.Equal, value := "a\n" },
     { tag := ChangeTag.Delete, value := "b\n" },
     { tag := ChangeTag.Insert, value := "x\n" },
     { tag := ChangeTag.Equal, value := "c\n" }]
    ['s', 'a', 's']
    { hintShown := true,
      previewLines := [(ChangeTag.Equal, "a"), (ChangeTag.Delete, "b"),
        (ChangeTag.Insert, "x"), (ChangeTag.Equal, "c")],
      prompts := [ChangeTag.Delete, ChangeTag.Insert],
      decisions := [(ChangeTag.Delete, false), (ChangeTag.Insert, true)],
      resulting := "a\nx\nc\n", changed := true, saveGateInvoked := true,
      result := some "a\nx\nc\n", keysLeft := [] }
    "a\nx\nc\n" rfl
    ⟨{ tag := ChangeTag.Delete, value := "b\n" }, by decide, by decide⟩
    (by decide) rfl

/-- Witness for C3: issuing `d` at the first Insert of
Insert/Equal/Insert leaves exactly the one issuing prompt and consumes only
the one key. -/
theorem sticky_decision_no_reprompt_witness :
    (processChanges
      ({ tag := ChangeTag.Insert, value := "x\n" } ::
        ([{ tag := ChangeTag.Equal, value := "e\n" },
          { tag := ChangeTag.Insert, value := "y\n" }] ++ []))
      none ['d', 's']).map (fun v => v.2.2.1) = some [ChangeTag.Insert] := by
  obtain ⟨res0, ch0, ds0, heq⟩ :=
    sticky_decision_no_reprompt
      { tag := ChangeTag.Insert, value := "x\n" }
      [{ tag := ChangeTag.Equal, value := "e\n" },
       { tag := ChangeTag.Insert, value := "y\n" }]
      [] none ['d', 's'] ['s'] true true (by decide) rfl rfl (by decide)
  rw [heq]
  rfl

/-- `(Char.ofNat n).toNat = n` for scalar values below the surrogate range. -/
theorem char_toNat_ofNat {n : Nat} (h : n < 0xD800) : (Char.ofNat n).toNat = n := by
  have hv : n.isValidChar := Or.inl h
  simp [Char.ofNat, hv, Char.ofNatAux, Char.toNat, UInt32.toNat, BitVec.toNat_ofNatLt]

/-- ASCII lowercasing maps no character into or out of the whitespace
class, since it only moves code points 65-90 to 97-122. -/
theorem rustIsWhitespace_toLower (c : Char) :
    rustIsWhitespace c.toLower = rustIsWhitespace c := by
  by_cases h : c.toNat ≥ 65 ∧ c.toNat ≤ 90
  · have hl : c.toLower = Char.ofNat (c.toNat + 32) := by
      simp [Char.toLower, h]
    have h1 : (Char.ofNat (c.toNat + 32)).toNat = c.toNat + 32 :=
      char_toNat_ofNat (by omega)
    have e1 : rustIsWhitespace (Char.ofNat (c.toNat + 32)) = false := by
      simp only [rustIsWhitespace, h1]
      simp only [Bool.or_eq_false_iff, Bool.and_eq_false_iff,
        decide_eq_false_iff_not]
      omega
    have e2 : rustIsWhitespace c = false := by
      simp only [rustIsWhitespace]
      simp only [Bool.or_eq_false_iff, Bool.and_eq_false_iff,
        decide_eq_false_iff_not]
      omega
    rw [hl, e1, e2]
  · have hl : c.toLower = c := by
      simp [Char.toLower, h]
    rw [hl]

/-- Lowercasing commutes with trimming: the dispatch comparison can be read
either as lowercase-then-trim (the source's order) or trim-then-lowercase
(the spec's phrasing). -/
theorem rustTrim_rustToLowercase (s : String) :
    rustTrim (rustToLowercase s) = rustToLowercase (rustTrim s) := by
  have hws : (rustIsWhitespace ∘ Char.toLower) = rustIsWhitespace :=
    funext rustIsWhitespace_toLower
  have hmk : ∀ l : List Char, (String.mk l).toList = l := fun _ => rfl
  simp only [rustTrim, rustToLowercase, hmk, List.dropWhile_map, hws,
    ← List.map_reverse]

/-- The dispatch rule as the spec words it: the first argument, surrounding
whitespace trimmed, compared case-insensitively against "read" / "write";
absent or any other argument selects help. Stated from the spec's words, to
be compared with `mainMode`. -/
def dispatchSpec (arg : Option String) : Mode :=
  match arg with
  | none => Mode.helpMode
  | some s =>
    if rustToLowercase (rustTrim s) = "read" then Mode.readMode
    else if rustToLowercase (rustTrim s) = "write" then Mode.writeMode
    else Mode.helpMode

/-- C7: `main`'s dispatch runs the read procedure exactly when the first
argument, case-insensitively and with surrounding whitespace trimmed,
equals "read", the write procedure exactly for "write", and otherwise (or
with no argument) the help continuation, which loads no manifest and
returns success without touching any file. -/
theorem mode_dispatch_characterisation (arg : Option String) :
    mainMode arg = dispatchSpec arg ∧
    mainMode none = Mode.helpMode ∧
    modeReadsConfiguration Mode.helpMode = false ∧
    helpResult = Except.ok () := by
  refine ⟨?_, rfl, rfl, rfl⟩
  cases arg with
  | none => rfl
  | some s => simp [mainMode, dispatchSpec, rustTrim_rustToLowercase]

/-- C8: in write mode, for one expanded and readable other-path: identical
contents produce no save prompt and no write (only the Compare status
line, keys untouched); differing contents invoke the save question, after
which discard leaves the file untouched and save writes the original's
content to the other file. -/
theorem write_pair_gating
    (expand : String → Option String) (load : String → Except String String)
    (fsWrite : String → String → Option String)
    (original_file original_content other_raw other_file other_content : String)
    (keys : List Char)
    (hexp : expand other_raw = some other_file)
    (hload : load other_file = Except.ok other_content) :
    (original_content = other_content →
      write_pair expand load fsWrite original_file original_content other_raw keys =
        some (Except.ok ([PairEvent.compare other_file], keys))) ∧
    (∀ keys1, original_content ≠ other_content →
      read_save_question keys = some (false, keys1) →
      write_pair expand load fsWrite original_file original_content other_raw keys =
        some (Except.ok ([PairEvent.compare other_file], keys1))) ∧
    (∀ keys1, original_content ≠ other_content →
      read_save_question keys = some (true, keys1) →
      fsWrite other_file original_content = none →
      write_pair expand load fsWrite original_file original_content other_raw keys =
        some (Except.ok ([PairEvent.compare other_file,
          PairEvent.fileWrite other_file original_content], keys1))) := by
  refine ⟨?_, ?_, ?_⟩
  · intro heq
    simp [write_pair, hexp, hload, heq]
  · intro keys1 hne hsq
    simp [write_pair, hexp, hload, hne, hsq]
  · intro keys1 hne hsq hw
    simp [write_pair, hexp, hload, hne, hsq, hw]

/-- Witness for C8 at identical contents: no prompt, no write, no key
consumed. -/
theorem write_pair_gating_witness :
    write_pair (fun p => some p) (fun _ => Except.ok "x") (fun _ _ => none)
      "orig" "x" "other" ['s'] =
      some (Except.ok ([PairEvent.compare "other"], ['s'])) :=
  (write_pair_gating (fun p => some p) (fun _ => Except.ok "x") (fun _ _ => none)
    "orig" "x" "other" "other" "x" ['s'] rfl rfl).1 rfl

/-- C9: when the write-back to the OTHER file fails in write mode, the
raised error (and its display message) carries the ORIGINAL file's path,
not the path of the file whose write failed. -/
theorem write_failure_names_original_path :
    write_pair (fun p => some p) (fun _ => Except.ok "y") (fun _ _ => some "disk full")
      "orig" "x" "other" ['s'] =
      some (Except.error
        (EinstellungError.FailedToSaveConfigurationFile "orig" "disk full")) ∧
    errorMessage (EinstellungError.FailedToSaveConfigurationFile "orig" "disk full") =
      "The configuration file orig could not be saved (disk full)" ∧
    ("orig" : String) ≠ "other" := by
  exact ⟨rfl, rfl, by decide⟩

/-- C10: a manifest line holding exactly one whitespace-separated token
(not starting with `#`) parses to an entry with an empty other-file list;
for such an entry both modes still require the original to load (its
absence raises `SyncFileMissing`) and, when it loads, perform no
comparison, prompt or write and consume no key. -/
theorem single_token_entry_behaviour
    (expand : String → Option String) (load : String → Except String String)
    (diff : String → String → List Change)
    (fsWrite : String → String → Option String)
    (line tok : String) (keys : List Char)
    (hsplit : splitWhitespace line = [tok])
    (hhash : startsWithHash tok = false) :
    parseSyncLine line = some (tok, []) ∧
    (∀ e, load tok = Except.error e →
      read_entry expand load diff fsWrite tok [] keys =
        some (Except.error (EinstellungError.SyncFileMissing tok e)) ∧
      write_entry expand load fsWrite tok [] keys =
        some (Except.error (EinstellungError.SyncFileMissing tok e))) ∧
    (∀ content, load tok = Except.ok content →
      read_entry expand load diff fsWrite tok [] keys =
        some (Except.ok ([], keys)) ∧
      write_entry expand load fsWrite tok [] keys =
        some (Except.ok ([], keys))) := by
  refine ⟨?_, ?_, ?_⟩
  · simp [parseSyncLine, hsplit, hhash]
  · intro e he
    exact ⟨by simp [read_entry, he], by simp [write_entry, he]⟩
  · intro content hc
    exact ⟨by simp [read_entry, hc, read_others],
           by simp [write_entry, hc, write_others]⟩

/-- Witness for C10: the one-token line "config" yields an entry with no
other paths, and a read-mode pass over it performs nothing. -/
theorem single_token_entry_behaviour_witness :
    parseSyncLine "config" = some ("config", []) ∧
    read_entry (fun p => some p) (fun _ => Except.ok "c")
      (fun _ _ => []) (fun _ _ => none) "config" [] [] =
      some (Except.ok ([], [])) := by
  have h := single_token_entry_behaviour (fun p => some p) (fun _ => Except.ok "c")
    (fun _ _ => []) (fun _ _ => none) "config" "config" [] rfl rfl
  exact ⟨h.1, (h.2.2 "c" rfl).1⟩

end Einstellung
